import Mathlib

/-! # httpsms: the outstanding-message queue and the phone upsert

A shallow embedding of

* `api/pkg/repositories/gorm_message_repository.go` (`Load`, `Update`,
  `GetOutstanding`), over a messages table held as a list of rows, and
* `api/pkg/services/phone_service.go` (`Upsert`, `createPhone`) over the
  `PhoneRepository` interface of `api/pkg/repositories/phone_repository.go`.

Wall-clock reads (`now()` in SQL, `time.Now()` in Go), fresh UUIDs, storage
failures, the runs of a transaction that are rolled back and retried, and the
order in which the database returns updated rows are inputs of the model.
-/

namespace HttpSms

/-! ## Data model -/

/-- A `uuid.UUID`, read as a number; `0` is `uuid.Nil`. -/
abbrev UUID := Nat

/-- A point in time, in microseconds (the resolution of a SQL timestamp). -/
abbrev Timestamp := Int

/-- Modelled from the spec: `entities.MessageStatus` is declared outside `src/`.
The spec lists the four statuses; `Pending` is `entities.MessageStatusPending`,
`Sending` is `entities.MessageStatusSending`, which is also the value the
literal `"sending"` of `GetOutstanding` stores. -/
inductive MessageStatus where
  | Pending
  | Sending
  | Sent
  | Failed
deriving DecidableEq, Repr

/-- Modelled from the spec: `entities.Message` is declared outside `src/`. The
fields are those of the spec's data model; `LastAttemptedAt` is nullable (a
message that was never attempted has none). -/
structure Message where
  ID : UUID
  Owner : String
  Contact : String
  Content : String
  Status : MessageStatus
  RequestReceivedAt : Timestamp
  LastAttemptedAt : Option Timestamp
  OrderTimestamp : Timestamp
deriving DecidableEq, Repr

/-- The `messages` table: its rows, in the order the storage engine visits
them. -/
abbrev DB := List Message

/-- The primary-key constraint on `id`: no two rows share an identifier. -/
def PrimaryKey (db : DB) : Prop :=
  (db.map Message.ID).Nodup

instance (db : DB) : Decidable (PrimaryKey db) := by
  unfold PrimaryKey; infer_instance

/-! ## Errors -/

/-- An error raised by the database layer (`tx.Error`). -/
inductive DbError where
  | ErrRecordNotFound
  | DuplicateKey
  | Unavailable
deriving DecidableEq, Repr

/-- A `stacktrace.ErrorCode` (a `uint16`). -/
abbrev ErrorCode := Nat

/-- The code `stacktrace.NoCode`, `math.MaxUint16`. -/
def NoCode : ErrorCode := 65535

/-- An error built by `stacktrace.Propagate` or `stacktrace.PropagateWithCode`:
its code and the database error it wraps (the message text is not modelled). -/
structure StackError where
  code : ErrorCode
  cause : DbError
deriving DecidableEq, Repr

/-- The call `stacktrace.Propagate(err, msg)` on a database error: the cause is
not a stacktrace error, so the result carries `NoCode`. -/
def Propagate (err : DbError) : StackError :=
  { code := NoCode, cause := err }

/-- The call `stacktrace.PropagateWithCode(err, code, msg)`. -/
def PropagateWithCode (err : DbError) (code : ErrorCode) : StackError :=
  { code := code, cause := err }

/-- The call `stacktrace.GetCode(err)`: `NoCode` for a nil error. -/
def GetCode : Option StackError → ErrorCode
  | none => NoCode
  | some e => e.code

/-! ## The SQL of `GetOutstanding` -/

/-- The interval `'15 minutes'`, in microseconds. -/
def staleAfter : Int := 15 * 60 * 1000000

/-- The SQL `age(now(), last_attempted_at)`: NULL when the column is NULL. -/
def age (now : Timestamp) (lastAttemptedAt : Option Timestamp) : Option Int :=
  lastAttemptedAt.map (fun t => now - t)

/-- The condition
`status = pending OR (status = sending AND age(now(), last_attempted_at) > '15 minutes')`;
a comparison with NULL is not true. -/
def outstandingStatus (now : Timestamp) (m : Message) : Bool :=
  m.Status == MessageStatus.Pending ||
    (m.Status == MessageStatus.Sending &&
      (match age now m.LastAttemptedAt with
       | some a => decide (a > staleAfter)
       | none => false))

/-- The whole WHERE of the subquery: `owner = ? AND (...)`. -/
def outstandingWhere (owner : String) (now : Timestamp) (m : Message) : Bool :=
  m.Owner == owner && outstandingStatus now m

/-- The clause `ORDER BY request_received_at ASC`. -/
def orderByRequestReceivedAt (rows : List Message) : List Message :=
  rows.insertionSort (fun a b => a.RequestReceivedAt ≤ b.RequestReceivedAt)

/-- The clause built by GORM for `.Limit(take)`. A positive `take` gives
`LIMIT take` and a negative one gives no LIMIT clause at all. For `take = 0`
GORM releases differ: with `limitZero = false` the clause is left out, with
`limitZero = true` it is `LIMIT 0`. -/
def gormLimit (limitZero : Bool) (take : Int) (rows : List Message) : List Message :=
  if take > 0 then rows.take take.toNat
  else if take = 0 ∧ limitZero = true then []
  else rows

/-- The rows the subquery ranges over, before `Select("id")`:
`WHERE owner = ? AND (...) ORDER BY request_received_at ASC LIMIT take`. -/
def outstandingRows (limitZero : Bool) (db : DB) (owner : String) (take : Int)
    (now : Timestamp) : List Message :=
  gormLimit limitZero take
    (orderByRequestReceivedAt (db.filter (outstandingWhere owner now)))

/-- The subquery
`SELECT id FROM messages WHERE owner = ? AND (...) ORDER BY request_received_at ASC LIMIT take`. -/
def outstandingIDs (limitZero : Bool) (db : DB) (owner : String) (take : Int)
    (now : Timestamp) : List UUID :=
  (outstandingRows limitZero db owner take now).map Message.ID

/-- The assignment of `Update("status", "sending")` to one row. -/
def setSending (m : Message) : Message :=
  { m with Status := MessageStatus.Sending }

/-- The order in which the database hands back the rows of an
`UPDATE ... RETURNING`. The statement of `GetOutstanding` carries no ORDER BY of
its own, so the order is the engine's: some rearrangement of the updated
rows. -/
structure Plan where
  returning : List Message → List Message
  returning_perm : ∀ rows : List Message, (returning rows).Perm rows

/-- The condition GORM derives from `tx.Model(messages)` when it builds the
UPDATE. `messages` is declared outside the transaction closure, so it is empty
on the first run and holds the rows of the run before on a retry. An empty
slice gives no condition; a slice with rows (the last of them with a non-zero
id) gives `id IN (...)` over the non-zero ids of the slice. -/
def modelIDs (messages : List Message) : Option (List UUID) :=
  match messages.getLast? with
  | none => none
  | some last =>
    if last.ID = 0 then none
    else some ((messages.map Message.ID).filter (fun id => decide (id ≠ 0)))

/-- Whether an id passes the condition of the model. -/
def inModel (model : Option (List UUID)) (id : UUID) : Bool :=
  match model with
  | none => true
  | some ids => decide (id ∈ ids)

/-- The WHERE of the UPDATE: the condition of the model and `id IN (subquery)`. -/
def whereIDs (model : Option (List UUID)) (ids : List UUID) (m : Message) : Bool :=
  inModel model m.ID && decide (m.ID ∈ ids)

/-- The statement `UPDATE messages SET status = 'sending' WHERE ... RETURNING *`:
the table afterwards and the rows returned, in the order of the engine's
plan. -/
def updateReturning (plan : Plan) (db : DB) (model : Option (List UUID))
    (ids : List UUID) : DB × List Message :=
  (db.map (fun m => if whereIDs model ids m = true then setSending m else m),
   plan.returning ((db.filter (whereIDs model ids)).map setSending))

/-- One run of the closure `func(tx *gorm.DB) error` of `GetOutstanding`, with
`messages` as the run before left it: the table afterwards and the new content
of `messages` (GORM scans the returned rows into the slice, replacing what it
held). -/
def txClosure (limitZero : Bool) (plan : Plan) (messages : List Message) (db : DB)
    (owner : String) (take : Int) (now : Timestamp) : DB × List Message :=
  updateReturning plan db (modelIDs messages) (outstandingIDs limitZero db owner take now)

/-- A run of the closure that `crdbgorm.ExecuteTx` rolled back and ran again
because of a retryable error: the table and the time that run saw, the plan of
its UPDATE, and whether the UPDATE had returned its rows (the error came at the
release of the savepoint) or had itself failed (`messages` is then left as it
was). -/
structure Retried where
  db : DB
  now : Timestamp
  plan : Plan
  updated : Bool

/-- The content of `messages` after a rolled-back run. -/
def messagesAfter (limitZero : Bool) (owner : String) (take : Int)
    (messages : List Message) (run : Retried) : List Message :=
  if run.updated = true then
    (txClosure limitZero run.plan messages run.db owner take run.now).2
  else messages

/-- The method `gormMessageRepository.GetOutstanding`. `retried` lists the runs
of the closure that `crdbgorm.ExecuteTx` rolled back and retried, in order;
`db`, `now` and `plan` are those of its last run. `fault` is the error that
ends the transaction, if the storage layer raises one that is not retried: the
transaction is then rolled back and the error is propagated. -/
def GetOutstanding (limitZero : Bool) (plan : Plan) (retried : List Retried) (db : DB)
    (fault : Option DbError) (owner : String) (take : Int) (now : Timestamp) :
    Except StackError (List Message) × DB :=
  let messages := retried.foldl (messagesAfter limitZero owner take) []
  match fault with
  | some err => (Except.error (Propagate err), db)
  | none =>
    let r := txClosure limitZero plan messages db owner take now
    (Except.ok r.2, r.1)

/-- The condition of the model in the last run of the closure: the one derived
from `messages` as the retried runs left it. -/
def lastModel (limitZero : Bool) (retried : List Retried) (owner : String)
    (take : Int) : Option (List UUID) :=
  modelIDs (retried.foldl (messagesAfter limitZero owner take) [])

/-! ## `Load` and `Update` -/

/-- The query `db.First(message, messageID)`. -/
def dbFirst (db : DB) (fault : Option DbError) (messageID : UUID) :
    Except DbError Message :=
  match fault with
  | some err => Except.error err
  | none =>
    match db.find? (fun m => m.ID == messageID) with
    | some m => Except.ok m
    | none => Except.error DbError.ErrRecordNotFound

/-- The method `gormMessageRepository.Load`. `ErrCodeNotFound` is a constant of
the `repositories` package declared outside `src/`. -/
def Load (ErrCodeNotFound : ErrorCode) (db : DB) (fault : Option DbError)
    (messageID : UUID) : Except StackError Message :=
  match dbFirst db fault messageID with
  | Except.error err =>
    if err = DbError.ErrRecordNotFound then
      Except.error (PropagateWithCode err ErrCodeNotFound)
    else
      Except.error (Propagate err)
  | Except.ok message => Except.ok message

/-- The call `db.Create(message)`: an INSERT, refused on a duplicate key. -/
def dbCreate (db : DB) (message : Message) : Option DbError × DB :=
  if message.ID ∈ db.map Message.ID then (some DbError.DuplicateKey, db)
  else (none, db ++ [message])

/-- The call `db.Save(message)` of GORM: with a zero primary key it is a
`Create`; otherwise it updates every column of the row with that key and, when
no row was affected, creates the row. -/
def dbSave (db : DB) (fault : Option DbError) (message : Message) :
    Option DbError × DB :=
  match fault with
  | some err => (some err, db)
  | none =>
    if message.ID = 0 then dbCreate db message
    else if message.ID ∈ db.map Message.ID then
      (none, db.map (fun m => if m.ID = message.ID then message else m))
    else dbCreate db message

/-- The method `gormMessageRepository.Update`. -/
def Update (db : DB) (fault : Option DbError) (message : Message) :
    Option StackError × DB :=
  match dbSave db fault message with
  | (some err, db') => (some (Propagate err), db')
  | (none, db') => (none, db')

/-! ## The phone service -/

/-- An `entities.UserID`. -/
abbrev UserID := String

/-- A `phonenumbers.PhoneNumber` of the phone-number library. -/
structure PhoneNumber where
  CountryCode : Nat
  NationalNumber : Nat
deriving DecidableEq, Repr

/-- An `entities.Phone`, with the fields `createPhone` fills in; `FcmToken` is
a `*string`. -/
structure Phone where
  ID : UUID
  UserID : UserID
  FcmToken : Option String
  PhoneNumber : String
  CreatedAt : Timestamp
  UpdatedAt : Timestamp
deriving DecidableEq, Repr

/-- The struct `PhoneUpsertParams`. -/
structure PhoneUpsertParams where
  PhoneNumber : PhoneNumber
  FcmToken : String
  UserID : UserID
deriving DecidableEq, Repr

/-- The interface `PhoneRepository` (its `Save` and `Load`), over a repository
state `σ`. `Load` returns a `*entities.Phone`, possibly nil, and an error,
possibly nil. -/
structure PhoneRepository (σ : Type) where
  Save : σ → Phone → Option StackError × σ
  Load : σ → UserID → String → Option Phone × Option StackError

/-- What `Upsert` reads from outside: `phonenumbers.Format(_, E164)`, the value
of `uuid.New()` and the two readings of `time.Now().UTC()`. -/
structure Env where
  Format : PhoneNumber → String
  newUUID : UUID
  createdAt : Timestamp
  updatedAt : Timestamp

/-- A call made on the repository. -/
inductive RepoCall where
  | Load (userID : UserID) (phoneNumber : String)
  | Save (phone : Phone)
deriving DecidableEq, Repr

/-- How a call of `Upsert` ends: with a phone, with an error, or in the runtime
fault of an assignment through a nil pointer. -/
inductive UpsertResult where
  | ok (phone : Phone)
  | error (err : StackError)
  | nilDereference
deriving DecidableEq, Repr

/-- The call `stacktrace.Propagate(err, msg)` on an error of the repository:
the code of the cause is inherited. -/
def PropagateStack (err : StackError) : StackError :=
  { code := GetCode (some err), cause := err.cause }

/-- The method `PhoneService.createPhone`: the result, the repository state and
the calls made on the repository. -/
def createPhone {σ : Type} (repo : PhoneRepository σ) (env : Env) (s : σ)
    (params : PhoneUpsertParams) : UpsertResult × σ × List RepoCall :=
  let phone : Phone :=
    { ID := env.newUUID
      UserID := params.UserID
      FcmToken := some params.FcmToken
      PhoneNumber := env.Format params.PhoneNumber
      CreatedAt := env.createdAt
      UpdatedAt := env.updatedAt }
  match repo.Save s phone with
  | (some err, s') => (UpsertResult.error (PropagateStack err), s', [RepoCall.Save phone])
  | (none, s') => (UpsertResult.ok phone, s', [RepoCall.Save phone])

/-- The method `PhoneService.Upsert`: the result, the repository state and the
calls made on the repository, in order. `ErrCodeNotFound` is a constant of the
`repositories` package declared outside `src/`. -/
def Upsert {σ : Type} (ErrCodeNotFound : ErrorCode) (repo : PhoneRepository σ)
    (env : Env) (s : σ) (params : PhoneUpsertParams) :
    UpsertResult × σ × List RepoCall :=
  let number := env.Format params.PhoneNumber
  let loaded := repo.Load s params.UserID number
  if GetCode loaded.2 = ErrCodeNotFound then
    let r := createPhone repo env s params
    (r.1, r.2.1, RepoCall.Load params.UserID number :: r.2.2)
  else
    match loaded.1 with
    | none => (UpsertResult.nilDereference, s, [RepoCall.Load params.UserID number])
    | some phone =>
      let phone' : Phone := { phone with FcmToken := some params.FcmToken }
      match repo.Save s phone' with
      | (some err, s') =>
        (UpsertResult.error (PropagateStack err), s',
          [RepoCall.Load params.UserID number, RepoCall.Save phone'])
      | (none, s') =>
        (UpsertResult.ok phone', s',
          [RepoCall.Load params.UserID number, RepoCall.Save phone'])

/-! ## Sample rows -/

/-- A message row for the worked examples. -/
def sampleMessage (id : UUID) (owner : String) (status : MessageStatus)
    (requestReceivedAt : Timestamp) (lastAttemptedAt : Option Timestamp) : Message :=
  { ID := id
    Owner := owner
    Contact := "+18005550100"
    Content := "hello"
    Status := status
    RequestReceivedAt := requestReceivedAt
    LastAttemptedAt := lastAttemptedAt
    OrderTimestamp := requestReceivedAt }

/-- One minute, in microseconds. -/
def minute : Int := 60 * 1000000

/-- The invariant of the data model that `lastAttemptedAt` is set only when a
message goes to Sending, and a message never goes back to Pending: a Pending
message has no `lastAttemptedAt`. -/
def PendingUnattempted (db : DB) : Prop :=
  ∀ m ∈ db, m.Status = MessageStatus.Pending → m.LastAttemptedAt = none

instance (db : DB) : Decidable (PendingUnattempted db) := by
  unfold PendingUnattempted; infer_instance

/-- The plan that returns the updated rows in the order of the table. -/
def tableOrder : Plan :=
  { returning := fun rows => rows
    returning_perm := fun rows => List.Perm.refl rows }

/-- The plan that returns the updated rows by ascending `request_received_at`. -/
def receivedOrder : Plan :=
  { returning := orderByRequestReceivedAt
    returning_perm := fun rows => List.perm_insertionSort _ rows }

/-- The batch a caller of `GetOutstanding` holds: the returned slice, and
nothing when the call returned an error (the slice pointer is then nil). -/
def batch (res : Except StackError (List Message)) : List Message :=
  match res with
  | Except.ok msgs => msgs
  | Except.error _ => []

/-- A repository whose storage is down: `Load` returns no phone and an error
without a code, and `Save` fails alike. -/
def unavailableRepository : PhoneRepository (List Phone) :=
  { Save := fun s _ => (some (Propagate DbError.Unavailable), s)
    Load := fun _ _ _ => (none, some (Propagate DbError.Unavailable)) }

/-- An environment for the worked examples. -/
def sampleEnv : Env :=
  { Format := fun n => "+" ++ toString n.CountryCode ++ toString n.NationalNumber
    newUUID := 42
    createdAt := 1000
    updatedAt := 1001 }

/-- Parameters of an upsert for the worked examples. -/
def sampleParams : PhoneUpsertParams :=
  { PhoneNumber := { CountryCode := 1, NationalNumber := 8005550100 }
    FcmToken := "token"
    UserID := "user-1" }

/-! ## Lemmas on the subquery -/

theorem gormLimit_sublist (limitZero : Bool) (take : Int) (rows : List Message) :
    (gormLimit limitZero take rows).Sublist rows := by
  unfold gormLimit
  split_ifs
  · exact List.take_sublist _ _
  · exact List.nil_sublist _
  · exact List.Sublist.refl _

theorem orderBy_perm (rows : List Message) :
    (orderByRequestReceivedAt rows).Perm rows :=
  List.perm_insertionSort _ rows

theorem orderBy_sorted (rows : List Message) :
    (orderByRequestReceivedAt rows).Sorted
      (fun a b => a.RequestReceivedAt ≤ b.RequestReceivedAt) := by
  haveI : IsTotal Message (fun a b => a.RequestReceivedAt ≤ b.RequestReceivedAt) :=
    ⟨fun a b => le_total a.RequestReceivedAt b.RequestReceivedAt⟩
  haveI : IsTrans Message (fun a b => a.RequestReceivedAt ≤ b.RequestReceivedAt) :=
    ⟨fun a b c hab hbc => le_trans hab hbc⟩
  exact List.sorted_insertionSort _ rows

theorem mem_outstandingRows {limitZero : Bool} {db : DB} {owner : String} {take : Int}
    {now : Timestamp} {m : Message}
    (h : m ∈ outstandingRows limitZero db owner take now) :
    m ∈ db ∧ outstandingWhere owner now m = true := by
  have h1 := (gormLimit_sublist limitZero take _).subset h
  have h2 := (orderBy_perm _).subset h1
  exact List.mem_filter.mp h2

theorem outstandingRows_ids_nodup {limitZero : Bool} {db : DB} {owner : String}
    {take : Int} {now : Timestamp} (hpk : PrimaryKey db) :
    ((outstandingRows limitZero db owner take now).map Message.ID).Nodup := by
  have h1 : ((db.filter (outstandingWhere owner now)).map Message.ID).Nodup :=
    List.Nodup.sublist ((List.filter_sublist db).map Message.ID) hpk
  have h2 : ((orderByRequestReceivedAt (db.filter (outstandingWhere owner now))).map
      Message.ID).Nodup :=
    ((orderBy_perm _).map Message.ID).nodup_iff.mpr h1
  exact List.Nodup.sublist ((gormLimit_sublist limitZero take _).map Message.ID) h2

theorem id_injective {db : DB} (hpk : PrimaryKey db) {a b : Message}
    (ha : a ∈ db) (hb : b ∈ db) (hid : a.ID = b.ID) : a = b :=
  List.inj_on_of_nodup_map hpk ha hb hid

theorem mem_outstandingIDs_iff {limitZero : Bool} {db : DB} {owner : String}
    {take : Int} {now : Timestamp} (hpk : PrimaryKey db) {m : Message} (hm : m ∈ db) :
    m.ID ∈ outstandingIDs limitZero db owner take now ↔
      m ∈ outstandingRows limitZero db owner take now := by
  constructor
  · intro h
    obtain ⟨s, hs, hid⟩ := List.mem_map.mp h
    have := id_injective hpk (mem_outstandingRows hs).1 hm hid
    exact this ▸ hs
  · intro h
    exact List.mem_map.mpr ⟨m, h, rfl⟩

theorem plan_mem (plan : Plan) (rows : List Message) (r : Message) :
    r ∈ plan.returning rows ↔ r ∈ rows :=
  (plan.returning_perm rows).mem_iff

theorem whereIDs_none (ids : List UUID) (m : Message) :
    whereIDs none ids m = decide (m.ID ∈ ids) := by
  simp [whereIDs, inModel]

theorem whereIDs_ids {model : Option (List UUID)} {ids : List UUID} {m : Message}
    (h : whereIDs model ids m = true) : m.ID ∈ ids := by
  unfold whereIDs at h
  rw [Bool.and_eq_true] at h
  exact of_decide_eq_true h.2

theorem lastModel_nil (limitZero : Bool) (owner : String) (take : Int) :
    lastModel limitZero [] owner take = none := rfl

/-- The rows `GetOutstanding` returns when the storage layer raises no error
that ends the transaction. -/
theorem getOutstanding_ok {limitZero : Bool} {plan : Plan} {retried : List Retried}
    {db : DB} {fault : Option DbError} {owner : String} {take : Int} {now : Timestamp}
    {msgs : List Message} {db' : DB}
    (h : GetOutstanding limitZero plan retried db fault owner take now
      = (Except.ok msgs, db')) :
    fault = none ∧
    msgs = plan.returning ((db.filter
      (whereIDs (lastModel limitZero retried owner take)
        (outstandingIDs limitZero db owner take now))).map setSending) ∧
    db' = db.map (fun m =>
      if whereIDs (lastModel limitZero retried owner take)
        (outstandingIDs limitZero db owner take now) m = true
      then setSending m else m) := by
  unfold GetOutstanding at h
  cases fault with
  | some err => simp at h
  | none =>
    simp only [txClosure, updateReturning, Prod.mk.injEq, Except.ok.injEq] at h
    exact ⟨rfl, h.1.symm, h.2.symm⟩

theorem mem_returned_iff {limitZero : Bool} {plan : Plan} {retried : List Retried}
    {db : DB} {fault : Option DbError} {owner : String} {take : Int} {now : Timestamp}
    {msgs : List Message} {db' : DB} (hpk : PrimaryKey db)
    (h : GetOutstanding limitZero plan retried db fault owner take now
      = (Except.ok msgs, db'))
    (r : Message) :
    r ∈ msgs ↔ ∃ m ∈ outstandingRows limitZero db owner take now,
      whereIDs (lastModel limitZero retried owner take)
        (outstandingIDs limitZero db owner take now) m = true ∧ r = setSending m := by
  obtain ⟨_, hmsgs, _⟩ := getOutstanding_ok h
  subst hmsgs
  rw [plan_mem]
  simp only [List.mem_map, List.mem_filter]
  constructor
  · rintro ⟨m, ⟨hm, hw⟩, rfl⟩
    exact ⟨m, (mem_outstandingIDs_iff hpk hm).mp (whereIDs_ids hw), hw, rfl⟩
  · rintro ⟨m, hm, hw, rfl⟩
    exact ⟨m, ⟨(mem_outstandingRows hm).1, hw⟩, rfl⟩

theorem selected_length {limitZero : Bool} {db : DB} {owner : String} {take : Int}
    {now : Timestamp} (hpk : PrimaryKey db) :
    (db.filter (fun m =>
      decide (m.ID ∈ outstandingIDs limitZero db owner take now))).length =
      (outstandingRows limitZero db owner take now).length := by
  apply List.Perm.length_eq
  have hnd : db.Nodup := List.Nodup.of_map _ hpk
  have hnd2 : (outstandingRows limitZero db owner take now).Nodup :=
    List.Nodup.of_map _ (outstandingRows_ids_nodup hpk)
  refine (List.perm_ext_iff_of_nodup (hnd.filter _) hnd2).mpr ?_
  intro m
  simp only [List.mem_filter, decide_eq_true_eq]
  constructor
  · rintro ⟨hm, hid⟩
    exact (mem_outstandingIDs_iff hpk hm).mp hid
  · intro hm
    exact ⟨(mem_outstandingRows hm).1,
      (mem_outstandingIDs_iff hpk (mem_outstandingRows hm).1).mpr hm⟩

theorem returned_length_le {limitZero : Bool} {plan : Plan} {retried : List Retried}
    {db : DB} {fault : Option DbError} {owner : String} {take : Int} {now : Timestamp}
    {msgs : List Message} {db' : DB} (hpk : PrimaryKey db)
    (h : GetOutstanding limitZero plan retried db fault owner take now
      = (Except.ok msgs, db')) :
    msgs.length ≤ (outstandingRows limitZero db owner take now).length := by
  obtain ⟨_, hmsgs, _⟩ := getOutstanding_ok h
  subst hmsgs
  rw [(plan.returning_perm _).length_eq, List.length_map, ← selected_length hpk]
  have hsplit : db.filter (whereIDs (lastModel limitZero retried owner take)
      (outstandingIDs limitZero db owner take now)) =
      (db.filter (fun m =>
        decide (m.ID ∈ outstandingIDs limitZero db owner take now))).filter
        (fun m => inModel (lastModel limitZero retried owner take) m.ID) := by
    rw [List.filter_filter]
    rfl
  rw [hsplit]
  exact List.length_filter_le _ _

theorem returned_length {limitZero : Bool} {plan : Plan} {db : DB}
    {fault : Option DbError} {owner : String} {take : Int} {now : Timestamp}
    {msgs : List Message} {db' : DB} (hpk : PrimaryKey db)
    (h : GetOutstanding limitZero plan [] db fault owner take now
      = (Except.ok msgs, db')) :
    msgs.length = (outstandingRows limitZero db owner take now).length := by
  obtain ⟨_, hmsgs, _⟩ := getOutstanding_ok h
  subst hmsgs
  rw [(plan.returning_perm _).length_eq, List.length_map, ← selected_length hpk,
    lastModel_nil]
  exact congrArg List.length (List.filter_congr (fun m _ => whereIDs_none _ m))

theorem find_by_id {db : DB} (hpk : PrimaryKey db) {m : Message} (hm : m ∈ db) :
    db.find? (fun x => x.ID == m.ID) = some m := by
  induction db with
  | nil => simp at hm
  | cons a rest ih =>
    by_cases ha : a.ID = m.ID
    · have : a = m := id_injective hpk (List.mem_cons_self a rest) hm ha
      subst this
      simp
    · have hne : m ≠ a := fun e => ha (e ▸ rfl)
      have hm' : m ∈ rest := by
        rcases List.mem_cons.mp hm with e | e
        · exact absurd e hne
        · exact e
      have hpk' : PrimaryKey rest := (List.nodup_cons.mp hpk).2
      simp [List.find?_cons, ha, ih hpk' hm']

theorem getOutstanding_ids (limitZero : Bool) (plan : Plan) (retried : List Retried)
    (db : DB) (fault : Option DbError) (owner : String) (take : Int) (now : Timestamp) :
    (GetOutstanding limitZero plan retried db fault owner take now).2.map Message.ID =
      db.map Message.ID := by
  unfold GetOutstanding
  cases fault with
  | some err => rfl
  | none =>
    simp only [txClosure, updateReturning, List.map_map]
    apply List.map_congr_left
    intro m _
    by_cases h : whereIDs (modelIDs (List.foldl (messagesAfter limitZero owner take)
        [] retried)) (outstandingIDs limitZero db owner take now) m = true <;>
      simp [h, setSending]

theorem getOutstanding_primaryKey {limitZero : Bool} {plan : Plan}
    {retried : List Retried} {db : DB} {fault : Option DbError} {owner : String}
    {take : Int} {now : Timestamp} {res : Except StackError (List Message)} {db' : DB}
    (hpk : PrimaryKey db)
    (h : GetOutstanding limitZero plan retried db fault owner take now = (res, db')) :
    PrimaryKey db' := by
  have := getOutstanding_ids limitZero plan retried db fault owner take now
  rw [h] at this
  unfold PrimaryKey
  rw [this]
  exact hpk

theorem plan_nil (plan : Plan) : plan.returning [] = [] :=
  (plan.returning_perm []).eq_nil

/-! ## C1: what a claim writes -/

/-- C1, as stated, fails: a Pending message that was never attempted is
returned by a call at time 100 with status Sending but with no
lastAttemptedAt, in the returned record and in the record a following Load
reads. -/
theorem getOutstanding_lastAttemptedAt_not_now :
    (GetOutstanding false tableOrder [] [sampleMessage 1 "A" MessageStatus.Pending 10 none]
        none "A" 1 100).1
      = Except.ok [sampleMessage 1 "A" MessageStatus.Sending 10 none] ∧
    (GetOutstanding true tableOrder [] [sampleMessage 1 "A" MessageStatus.Pending 10 none]
        none "A" 1 100).1
      = Except.ok [sampleMessage 1 "A" MessageStatus.Sending 10 none] ∧
    Load 1000
        (GetOutstanding false tableOrder []
          [sampleMessage 1 "A" MessageStatus.Pending 10 none] none "A" 1 100).2 none 1
      = Except.ok (sampleMessage 1 "A" MessageStatus.Sending 10 none) ∧
    (sampleMessage 1 "A" MessageStatus.Sending 10 none).LastAttemptedAt ≠ some 100 := by
  refine ⟨rfl, rfl, rfl, ?_⟩
  decide

/-- C1, amended: in a store whose identifiers are unique (the primary key),
after a successful GetOutstanding, for every limit and so for every limit at
least 1, whatever the order of the returned rows and whether or not the
transaction was retried, every returned message has status Sending, the
following Load of its identifier reads that same record from the store, and
its lastAttemptedAt is the one the message had before the call (it is not set
to now). -/
theorem getOutstanding_marks_sending (ErrCodeNotFound : ErrorCode) (limitZero : Bool)
    (plan : Plan) (retried : List Retried) (db : DB) (fault : Option DbError)
    (owner : String) (take : Int) (now : Timestamp)
    (msgs : List Message) (db' : DB) (hpk : PrimaryKey db)
    (h : GetOutstanding limitZero plan retried db fault owner take now
      = (Except.ok msgs, db')) :
    ∀ r ∈ msgs,
      r.Status = MessageStatus.Sending ∧
      Load ErrCodeNotFound db' none r.ID = Except.ok r ∧
      ∃ m ∈ db, m.ID = r.ID ∧ r.LastAttemptedAt = m.LastAttemptedAt := by
  intro r hr
  obtain ⟨m, hm, hw, rfl⟩ := (mem_returned_iff hpk h r).mp hr
  have hmdb := (mem_outstandingRows hm).1
  refine ⟨rfl, ?_, m, hmdb, rfl, rfl⟩
  have hpk' : PrimaryKey db' := getOutstanding_primaryKey hpk h
  have hmem : setSending m ∈ db' := by
    obtain ⟨_, _, hdb'⟩ := getOutstanding_ok h
    subst hdb'
    refine List.mem_map.mpr ⟨m, hmdb, ?_⟩
    rw [if_pos hw]
  unfold Load dbFirst
  simp only [find_by_id hpk' hmem]

/-- Witness of C1: one Pending message, claimed with limit 1. -/
theorem getOutstanding_marks_sending_witness :
    (sampleMessage 1 "A" MessageStatus.Sending 10 none).Status = MessageStatus.Sending ∧
    Load 1000 [sampleMessage 1 "A" MessageStatus.Sending 10 none] none
        (sampleMessage 1 "A" MessageStatus.Sending 10 none).ID
      = Except.ok (sampleMessage 1 "A" MessageStatus.Sending 10 none) ∧
    ∃ m ∈ [sampleMessage 1 "A" MessageStatus.Pending 10 none],
      m.ID = (sampleMessage 1 "A" MessageStatus.Sending 10 none).ID ∧
      (sampleMessage 1 "A" MessageStatus.Sending 10 none).LastAttemptedAt =
        m.LastAttemptedAt :=
  getOutstanding_marks_sending 1000 false tableOrder []
    [sampleMessage 1 "A" MessageStatus.Pending 10 none] none "A" 1 100
    [sampleMessage 1 "A" MessageStatus.Sending 10 none]
    [sampleMessage 1 "A" MessageStatus.Sending 10 none] (by decide) rfl
    (sampleMessage 1 "A" MessageStatus.Sending 10 none) (by simp)

/-! ## C2: only eligible messages are claimed -/

theorem outstandingStatus_iff (now : Timestamp) (m : Message) :
    outstandingStatus now m = true ↔
      (m.Status = MessageStatus.Pending ∨
        (m.Status = MessageStatus.Sending ∧
          ∃ t, m.LastAttemptedAt = some t ∧ now - t > staleAfter)) := by
  unfold outstandingStatus age
  cases hl : m.LastAttemptedAt with
  | none => simp
  | some t => simp

/-- C2: in a store whose identifiers are unique (the primary key), every
message returned by a successful GetOutstanding was, in the store before the
call, Pending, or Sending with now - lastAttemptedAt strictly above
the 15 minutes of staleAfter; and a Sending message with lastAttemptedAt = t is
not returned by a call made at a time now with now at most t + staleAfter. This
holds whatever the order of the returned rows and whether or not the
transaction was retried. -/
theorem getOutstanding_only_eligible (limitZero : Bool) (plan : Plan)
    (retried : List Retried) (db : DB)
    (fault : Option DbError) (owner : String) (take : Int) (now : Timestamp)
    (msgs : List Message) (db' : DB) (hpk : PrimaryKey db)
    (h : GetOutstanding limitZero plan retried db fault owner take now
      = (Except.ok msgs, db')) :
    staleAfter = 15 * minute ∧
    (∀ r ∈ msgs, ∃ m ∈ db, r = setSending m ∧
      (m.Status = MessageStatus.Pending ∨
        (m.Status = MessageStatus.Sending ∧
          ∃ t, m.LastAttemptedAt = some t ∧ now - t > staleAfter))) ∧
    (∀ m ∈ db, ∀ t, m.Status = MessageStatus.Sending → m.LastAttemptedAt = some t →
      now ≤ t + staleAfter → m.ID ∉ msgs.map Message.ID) := by
  refine ⟨rfl, ?_, ?_⟩
  · intro r hr
    obtain ⟨m, hm, _, rfl⟩ := (mem_returned_iff hpk h r).mp hr
    obtain ⟨hmdb, hw⟩ := mem_outstandingRows hm
    refine ⟨m, hmdb, rfl, ?_⟩
    unfold outstandingWhere at hw
    rw [Bool.and_eq_true] at hw
    exact (outstandingStatus_iff now m).mp hw.2
  · intro m hmdb t hs hl hnow hid
    obtain ⟨r, hr, hrid⟩ := List.mem_map.mp hid
    obtain ⟨m2, hm2, _, rfl⟩ := (mem_returned_iff hpk h r).mp hr
    obtain ⟨hm2db, hw⟩ := mem_outstandingRows hm2
    have heq : m2 = m := id_injective hpk hm2db hmdb hrid
    subst heq
    unfold outstandingWhere at hw
    rw [Bool.and_eq_true] at hw
    rcases (outstandingStatus_iff now m2).mp hw.2 with hp | ⟨_, t2, hl2, hgt⟩
    · rw [hs] at hp
      exact MessageStatus.noConfusion hp
    · rw [hl] at hl2
      cases hl2
      have h1 : now - t > staleAfter := hgt
      have h2 : now ≤ t + staleAfter := hnow
      linarith

/-- Witness of C2: a Pending message and a Sending message whose lease is one
minute old; only the first is returned. -/
theorem getOutstanding_only_eligible_witness :
    staleAfter = 15 * minute ∧
    (∀ r ∈ [sampleMessage 1 "A" MessageStatus.Sending 10 none],
      ∃ m ∈ [sampleMessage 1 "A" MessageStatus.Pending 10 none,
             sampleMessage 2 "A" MessageStatus.Sending 5 (some 0)],
        r = setSending m ∧
        (m.Status = MessageStatus.Pending ∨
          (m.Status = MessageStatus.Sending ∧
            ∃ t, m.LastAttemptedAt = some t ∧ minute - t > staleAfter))) ∧
    (∀ m ∈ [sampleMessage 1 "A" MessageStatus.Pending 10 none,
            sampleMessage 2 "A" MessageStatus.Sending 5 (some 0)],
      ∀ t, m.Status = MessageStatus.Sending → m.LastAttemptedAt = some t →
        minute ≤ t + staleAfter →
        m.ID ∉ [sampleMessage 1 "A" MessageStatus.Sending 10 none].map Message.ID) :=
  getOutstanding_only_eligible false tableOrder []
    [sampleMessage 1 "A" MessageStatus.Pending 10 none,
     sampleMessage 2 "A" MessageStatus.Sending 5 (some 0)]
    none "A" 5 minute
    [sampleMessage 1 "A" MessageStatus.Sending 10 none]
    [sampleMessage 1 "A" MessageStatus.Sending 10 none,
     sampleMessage 2 "A" MessageStatus.Sending 5 (some 0)] (by decide) rfl

/-! ## C6: isolation across owners -/

/-- C6: in a store whose identifiers are unique (the primary key), every
message returned by a successful GetOutstanding has the owner passed as
argument, so a call for owner B returns no message of another
owner A. This holds whatever the order of the returned rows and whether or not
the transaction was retried. -/
theorem getOutstanding_owner (limitZero : Bool) (plan : Plan) (retried : List Retried)
    (db : DB) (fault : Option DbError)
    (owner : String) (take : Int) (now : Timestamp) (msgs : List Message) (db' : DB)
    (hpk : PrimaryKey db)
    (h : GetOutstanding limitZero plan retried db fault owner take now
      = (Except.ok msgs, db')) :
    (∀ r ∈ msgs, r.Owner = owner) ∧
    (∀ other : String, other ≠ owner → ∀ r ∈ msgs, r.Owner ≠ other) := by
  have hown : ∀ r ∈ msgs, r.Owner = owner := by
    intro r hr
    obtain ⟨m, hm, _, rfl⟩ := (mem_returned_iff hpk h r).mp hr
    have hw := (mem_outstandingRows hm).2
    unfold outstandingWhere at hw
    rw [Bool.and_eq_true] at hw
    simpa [setSending] using hw.1
  exact ⟨hown, fun other hne r hr e => hne ((hown r hr) ▸ e.symm)⟩

/-- Witness of C6: a Pending message of owner A and one of owner B; the call
for B returns only the second. -/
theorem getOutstanding_owner_witness :
    (∀ r ∈ [sampleMessage 2 "B" MessageStatus.Sending 5 none], r.Owner = "B") ∧
    (∀ other : String, other ≠ "B" →
      ∀ r ∈ [sampleMessage 2 "B" MessageStatus.Sending 5 none], r.Owner ≠ other) :=
  getOutstanding_owner false tableOrder []
    [sampleMessage 1 "A" MessageStatus.Pending 1 none,
     sampleMessage 2 "B" MessageStatus.Pending 5 none]
    none "B" 10 100
    [sampleMessage 2 "B" MessageStatus.Sending 5 none]
    [sampleMessage 1 "A" MessageStatus.Pending 1 none,
     sampleMessage 2 "B" MessageStatus.Sending 5 none] (by decide) rfl

/-! ## C5: the size of a batch -/

theorem outstandingRows_length {limitZero : Bool} {db : DB} {owner : String}
    {take : Int} {now : Timestamp} (htake : 1 ≤ take) :
    (outstandingRows limitZero db owner take now).length =
      min take.toNat (db.filter (outstandingWhere owner now)).length := by
  unfold outstandingRows gormLimit
  have hpos : take > 0 := by omega
  rw [if_pos hpos, List.length_take, (orderBy_perm _).length_eq]

theorem filter_whereIDs_nil (model : Option (List UUID)) (db : DB) :
    db.filter (whereIDs model []) = [] := by
  apply List.filter_eq_nil_iff.mpr
  intro m _
  simp [whereIDs]

/-- C5, as stated, fails: the first run of the transaction, with limit 1,
claims message 1 and is rolled back for a retry; meanwhile message 1 is claimed
by another caller. The retried run is confined to the identifier of message 1,
which is no longer eligible, and the call returns an empty batch and no error
although message 2 is eligible: 0 messages, where min(limit, e) is 1. -/
theorem getOutstanding_retry_returns_fewer :
    PrimaryKey [sampleMessage 1 "A" MessageStatus.Sending 1 none,
                sampleMessage 2 "A" MessageStatus.Pending 2 none] ∧
    ([sampleMessage 1 "A" MessageStatus.Sending 1 none,
      sampleMessage 2 "A" MessageStatus.Pending 2 none].filter
        (outstandingWhere "A" 200)).length = 1 ∧
    GetOutstanding false tableOrder
        [{ db := [sampleMessage 1 "A" MessageStatus.Pending 1 none,
                  sampleMessage 2 "A" MessageStatus.Pending 2 none]
           now := 100
           plan := tableOrder
           updated := true }]
        [sampleMessage 1 "A" MessageStatus.Sending 1 none,
         sampleMessage 2 "A" MessageStatus.Pending 2 none] none "A" 1 200
      = (Except.ok [],
         [sampleMessage 1 "A" MessageStatus.Sending 1 none,
          sampleMessage 2 "A" MessageStatus.Pending 2 none]) ∧
    GetOutstanding true tableOrder
        [{ db := [sampleMessage 1 "A" MessageStatus.Pending 1 none,
                  sampleMessage 2 "A" MessageStatus.Pending 2 none]
           now := 100
           plan := tableOrder
           updated := true }]
        [sampleMessage 1 "A" MessageStatus.Sending 1 none,
         sampleMessage 2 "A" MessageStatus.Pending 2 none] none "A" 1 200
      = (Except.ok [],
         [sampleMessage 1 "A" MessageStatus.Sending 1 none,
          sampleMessage 2 "A" MessageStatus.Pending 2 none]) ∧
    ([] : List Message).length ≠ min (1 : Int).toNat 1 := by
  refine ⟨by decide, by decide, rfl, rfl, by decide⟩

/-- C5, amended: in a store whose identifiers are unique (the primary key) and
with limit at least 1, a successful GetOutstanding whose transaction commits at
its first run returns exactly min(limit, e) messages, e being the number of
eligible messages of the owner. Every successful call, retried or not, returns
at most min(limit, e) messages, hence never more than limit; when the storage
raises no error the call succeeds, and with e = 0 it returns the empty batch
and no error. -/
theorem getOutstanding_batch_bounds (limitZero : Bool) (db : DB) (owner : String)
    (take : Int) (now : Timestamp) (hpk : PrimaryKey db) (htake : 1 ≤ take) :
    (∀ (plan : Plan) (fault : Option DbError) (msgs : List Message) (db' : DB),
      GetOutstanding limitZero plan [] db fault owner take now = (Except.ok msgs, db') →
        msgs.length = min take.toNat (db.filter (outstandingWhere owner now)).length) ∧
    (∀ (plan : Plan) (retried : List Retried) (fault : Option DbError)
        (msgs : List Message) (db' : DB),
      GetOutstanding limitZero plan retried db fault owner take now
          = (Except.ok msgs, db') →
        msgs.length ≤ min take.toNat (db.filter (outstandingWhere owner now)).length ∧
        (msgs.length : Int) ≤ take) ∧
    (∀ (plan : Plan) (retried : List Retried), ∃ (msgs : List Message) (db' : DB),
      GetOutstanding limitZero plan retried db none owner take now
        = (Except.ok msgs, db')) ∧
    ((db.filter (outstandingWhere owner now)).length = 0 →
      ∀ (plan : Plan) (retried : List Retried),
        GetOutstanding limitZero plan retried db none owner take now
          = (Except.ok [], db)) := by
  refine ⟨?_, ?_, fun plan retried => ⟨_, _, rfl⟩, ?_⟩
  · intro plan fault msgs db' h
    exact (returned_length hpk h).trans (outstandingRows_length htake)
  · intro plan retried fault msgs db' h
    have hlen := returned_length_le hpk h
    rw [outstandingRows_length htake] at hlen
    refine ⟨hlen, ?_⟩
    have : msgs.length ≤ take.toNat := le_trans hlen (Nat.min_le_left _ _)
    omega
  · intro he plan retried
    have hrows : outstandingRows limitZero db owner take now = [] :=
      List.length_eq_zero.mp ((outstandingRows_length htake).trans (by simp [he]))
    simp [GetOutstanding, txClosure, updateReturning, outstandingIDs, hrows,
      filter_whereIDs_nil, plan_nil, whereIDs]

/-- Witness of C5: three eligible messages and limit 2. -/
theorem getOutstanding_batch_bounds_witness :
    (∀ (plan : Plan) (fault : Option DbError) (msgs : List Message) (db' : DB),
      GetOutstanding false plan []
        [sampleMessage 1 "A" MessageStatus.Pending 1 none,
         sampleMessage 2 "A" MessageStatus.Pending 2 none,
         sampleMessage 3 "A" MessageStatus.Pending 3 none]
        fault "A" 2 100 = (Except.ok msgs, db') →
        msgs.length = min (2 : Int).toNat
          ([sampleMessage 1 "A" MessageStatus.Pending 1 none,
            sampleMessage 2 "A" MessageStatus.Pending 2 none,
            sampleMessage 3 "A" MessageStatus.Pending 3 none].filter
              (outstandingWhere "A" 100)).length) ∧
    (∀ (plan : Plan) (retried : List Retried) (fault : Option DbError)
        (msgs : List Message) (db' : DB),
      GetOutstanding false plan retried
        [sampleMessage 1 "A" MessageStatus.Pending 1 none,
         sampleMessage 2 "A" MessageStatus.Pending 2 none,
         sampleMessage 3 "A" MessageStatus.Pending 3 none]
        fault "A" 2 100 = (Except.ok msgs, db') →
        msgs.length ≤ min (2 : Int).toNat
          ([sampleMessage 1 "A" MessageStatus.Pending 1 none,
            sampleMessage 2 "A" MessageStatus.Pending 2 none,
            sampleMessage 3 "A" MessageStatus.Pending 3 none].filter
              (outstandingWhere "A" 100)).length ∧
        (msgs.length : Int) ≤ 2) ∧
    (∀ (plan : Plan) (retried : List Retried), ∃ (msgs : List Message) (db' : DB),
      GetOutstanding false plan retried
        [sampleMessage 1 "A" MessageStatus.Pending 1 none,
         sampleMessage 2 "A" MessageStatus.Pending 2 none,
         sampleMessage 3 "A" MessageStatus.Pending 3 none]
        none "A" 2 100 = (Except.ok msgs, db')) ∧
    (([sampleMessage 1 "A" MessageStatus.Pending 1 none,
       sampleMessage 2 "A" MessageStatus.Pending 2 none,
       sampleMessage 3 "A" MessageStatus.Pending 3 none].filter
          (outstandingWhere "A" 100)).length = 0 →
      ∀ (plan : Plan) (retried : List Retried),
        GetOutstanding false plan retried
          [sampleMessage 1 "A" MessageStatus.Pending 1 none,
           sampleMessage 2 "A" MessageStatus.Pending 2 none,
           sampleMessage 3 "A" MessageStatus.Pending 3 none]
          none "A" 2 100 = (Except.ok [],
            [sampleMessage 1 "A" MessageStatus.Pending 1 none,
             sampleMessage 2 "A" MessageStatus.Pending 2 none,
             sampleMessage 3 "A" MessageStatus.Pending 3 none])) :=
  getOutstanding_batch_bounds false
    [sampleMessage 1 "A" MessageStatus.Pending 1 none,
     sampleMessage 2 "A" MessageStatus.Pending 2 none,
     sampleMessage 3 "A" MessageStatus.Pending 3 none]
    "A" 2 100 (by decide) (by decide)

/-! ## C3: which messages a batch holds, and in which order -/

/-- C3, as stated, fails, in two ways. Order: three Pending messages of one
owner, stored at timestamps 2, 1, 3, and limit 2; under an engine that returns
the updated rows in the order of the table, the batch holds the messages at 1
and 2 but lists the one at 2 first. Content: with limit 1, a first run that
claimed the message at 2 is rolled back for a retry while the older message at
1 is stored; the retried run is confined to the identifier of the message at
2, and the call returns an empty batch although the message at 1 is
eligible. -/
theorem getOutstanding_batch_not_ascending :
    PrimaryKey [sampleMessage 2 "A" MessageStatus.Pending 2 none,
                sampleMessage 1 "A" MessageStatus.Pending 1 none,
                sampleMessage 3 "A" MessageStatus.Pending 3 none] ∧
    (([sampleMessage 2 "A" MessageStatus.Pending 2 none,
       sampleMessage 1 "A" MessageStatus.Pending 1 none,
       sampleMessage 3 "A" MessageStatus.Pending 3 none].filter
        (outstandingWhere "A" 100)).map Message.RequestReceivedAt).Nodup ∧
    (GetOutstanding false tableOrder []
        [sampleMessage 2 "A" MessageStatus.Pending 2 none,
         sampleMessage 1 "A" MessageStatus.Pending 1 none,
         sampleMessage 3 "A" MessageStatus.Pending 3 none] none "A" 2 100).1
      = Except.ok [sampleMessage 2 "A" MessageStatus.Sending 2 none,
                   sampleMessage 1 "A" MessageStatus.Sending 1 none] ∧
    (GetOutstanding true tableOrder []
        [sampleMessage 2 "A" MessageStatus.Pending 2 none,
         sampleMessage 1 "A" MessageStatus.Pending 1 none,
         sampleMessage 3 "A" MessageStatus.Pending 3 none] none "A" 2 100).1
      = Except.ok [sampleMessage 2 "A" MessageStatus.Sending 2 none,
                   sampleMessage 1 "A" MessageStatus.Sending 1 none] ∧
    ¬ List.Sorted (fun a b : Timestamp => a ≤ b)
        ([sampleMessage 2 "A" MessageStatus.Sending 2 none,
          sampleMessage 1 "A" MessageStatus.Sending 1 none].map
            Message.RequestReceivedAt) ∧
    PrimaryKey [sampleMessage 2 "A" MessageStatus.Pending 2 none,
                sampleMessage 1 "A" MessageStatus.Pending 1 none] ∧
    (([sampleMessage 2 "A" MessageStatus.Pending 2 none,
       sampleMessage 1 "A" MessageStatus.Pending 1 none].filter
        (outstandingWhere "A" 200)).map Message.RequestReceivedAt).Nodup ∧
    sampleMessage 1 "A" MessageStatus.Pending 1 none ∈
      [sampleMessage 2 "A" MessageStatus.Pending 2 none,
       sampleMessage 1 "A" MessageStatus.Pending 1 none].filter
        (outstandingWhere "A" 200) ∧
    GetOutstanding false tableOrder
        [{ db := [sampleMessage 2 "A" MessageStatus.Pending 2 none]
           now := 100
           plan := tableOrder
           updated := true }]
        [sampleMessage 2 "A" MessageStatus.Pending 2 none,
         sampleMessage 1 "A" MessageStatus.Pending 1 none] none "A" 1 200
      = (Except.ok [],
         [sampleMessage 2 "A" MessageStatus.Pending 2 none,
          sampleMessage 1 "A" MessageStatus.Pending 1 none]) ∧
    GetOutstanding true tableOrder
        [{ db := [sampleMessage 2 "A" MessageStatus.Pending 2 none]
           now := 100
           plan := tableOrder
           updated := true }]
        [sampleMessage 2 "A" MessageStatus.Pending 2 none,
         sampleMessage 1 "A" MessageStatus.Pending 1 none] none "A" 1 200
      = (Except.ok [],
         [sampleMessage 2 "A" MessageStatus.Pending 2 none,
          sampleMessage 1 "A" MessageStatus.Pending 1 none]) := by
  refine ⟨by decide, by decide, rfl, rfl, by decide, by decide, by decide, by decide,
    rfl, rfl⟩

/-- C3, amended: in a store whose identifiers are unique (the primary key),
when the owner's eligible messages have pairwise distinct requestReceivedAt and
limit k is at least 1, a successful GetOutstanding whose transaction commits at
its first run returns exactly min(k, n) messages, each an eligible message of
the owner (with status set to Sending), each older than every eligible message
of the owner that is not returned. This holds for every order in which the
database returns the updated rows; the code fixes none. -/
theorem getOutstanding_oldest_first (limitZero : Bool) (plan : Plan) (db : DB)
    (fault : Option DbError) (owner : String) (take : Int) (now : Timestamp)
    (msgs : List Message) (db' : DB) (hpk : PrimaryKey db)
    (hdistinct : ((db.filter (outstandingWhere owner now)).map
      Message.RequestReceivedAt).Nodup)
    (htake : 1 ≤ take)
    (h : GetOutstanding limitZero plan [] db fault owner take now
      = (Except.ok msgs, db')) :
    msgs.length = min take.toNat (db.filter (outstandingWhere owner now)).length ∧
    (∀ r ∈ msgs, ∃ m ∈ db.filter (outstandingWhere owner now), r = setSending m) ∧
    (∀ r ∈ msgs, ∀ m ∈ db.filter (outstandingWhere owner now),
      m.ID ∉ msgs.map Message.ID → r.RequestReceivedAt < m.RequestReceivedAt) := by
  have hall : ∀ m ∈ outstandingRows limitZero db owner take now,
      whereIDs (lastModel limitZero [] owner take)
        (outstandingIDs limitZero db owner take now) m = true := by
    intro m hm
    rw [lastModel_nil, whereIDs_none]
    exact decide_eq_true (List.mem_map.mpr ⟨m, hm, rfl⟩)
  refine ⟨(returned_length hpk h).trans (outstandingRows_length htake), ?_, ?_⟩
  · intro r hr
    obtain ⟨m, hm, _, rfl⟩ := (mem_returned_iff hpk h r).mp hr
    exact ⟨m, List.mem_filter.mpr (mem_outstandingRows hm), rfl⟩
  · intro r hr m hm hid
    obtain ⟨m0, hm0, _, rfl⟩ := (mem_returned_iff hpk h r).mp hr
    have hnot : m ∉ outstandingRows limitZero db owner take now := by
      intro hin
      exact hid (List.mem_map.mpr
        ⟨setSending m, (mem_returned_iff hpk h _).mpr ⟨m, hin, hall m hin, rfl⟩, rfl⟩)
    have hpos : take > 0 := by omega
    have hrows : outstandingRows limitZero db owner take now =
        (orderByRequestReceivedAt (db.filter (outstandingWhere owner now))).take
          take.toNat := by
      unfold outstandingRows gormLimit
      rw [if_pos hpos]
    rw [hrows] at hm0 hnot
    have hmsorted : m ∈ orderByRequestReceivedAt (db.filter (outstandingWhere owner now)) :=
      (orderBy_perm _).mem_iff.mpr hm
    have hsplit := List.take_append_drop take.toNat
      (orderByRequestReceivedAt (db.filter (outstandingWhere owner now)))
    have hmdrop : m ∈ (orderByRequestReceivedAt
        (db.filter (outstandingWhere owner now))).drop take.toNat := by
      rw [← hsplit] at hmsorted
      rcases List.mem_append.mp hmsorted with hl | hr'
      · exact absurd hl hnot
      · exact hr'
    have hsorted := orderBy_sorted (db.filter (outstandingWhere owner now))
    unfold List.Sorted at hsorted
    rw [← hsplit, List.pairwise_append] at hsorted
    have hle : m0.RequestReceivedAt ≤ m.RequestReceivedAt := hsorted.2.2 m0 hm0 m hmdrop
    have hne : m0.RequestReceivedAt ≠ m.RequestReceivedAt := by
      intro heq
      have hm0f : m0 ∈ db.filter (outstandingWhere owner now) :=
        (orderBy_perm _).mem_iff.mp (List.mem_of_mem_take hm0)
      have : m0 = m := List.inj_on_of_nodup_map hdistinct hm0f hm heq
      exact hnot (this ▸ hm0)
    exact lt_of_le_of_ne hle hne

/-- Witness of C3: the three Pending messages stored at timestamps 2, 1, 3,
limit 2, and an engine that returns the updated rows by requestReceivedAt. -/
theorem getOutstanding_oldest_first_witness :
    [sampleMessage 1 "A" MessageStatus.Sending 1 none,
     sampleMessage 2 "A" MessageStatus.Sending 2 none].length =
      min (2 : Int).toNat
        ([sampleMessage 2 "A" MessageStatus.Pending 2 none,
          sampleMessage 1 "A" MessageStatus.Pending 1 none,
          sampleMessage 3 "A" MessageStatus.Pending 3 none].filter
            (outstandingWhere "A" 100)).length ∧
    (∀ r ∈ [sampleMessage 1 "A" MessageStatus.Sending 1 none,
            sampleMessage 2 "A" MessageStatus.Sending 2 none],
      ∃ m ∈ [sampleMessage 2 "A" MessageStatus.Pending 2 none,
             sampleMessage 1 "A" MessageStatus.Pending 1 none,
             sampleMessage 3 "A" MessageStatus.Pending 3 none].filter
               (outstandingWhere "A" 100), r = setSending m) ∧
    (∀ r ∈ [sampleMessage 1 "A" MessageStatus.Sending 1 none,
            sampleMessage 2 "A" MessageStatus.Sending 2 none],
      ∀ m ∈ [sampleMessage 2 "A" MessageStatus.Pending 2 none,
             sampleMessage 1 "A" MessageStatus.Pending 1 none,
             sampleMessage 3 "A" MessageStatus.Pending 3 none].filter
               (outstandingWhere "A" 100),
        m.ID ∉ [sampleMessage 1 "A" MessageStatus.Sending 1 none,
                sampleMessage 2 "A" MessageStatus.Sending 2 none].map Message.ID →
        r.RequestReceivedAt < m.RequestReceivedAt) :=
  getOutstanding_oldest_first false receivedOrder
    [sampleMessage 2 "A" MessageStatus.Pending 2 none,
     sampleMessage 1 "A" MessageStatus.Pending 1 none,
     sampleMessage 3 "A" MessageStatus.Pending 3 none]
    none "A" 2 100
    [sampleMessage 1 "A" MessageStatus.Sending 1 none,
     sampleMessage 2 "A" MessageStatus.Sending 2 none]
    [sampleMessage 2 "A" MessageStatus.Sending 2 none,
     sampleMessage 1 "A" MessageStatus.Sending 1 none,
     sampleMessage 3 "A" MessageStatus.Pending 3 none]
    (by decide) (by decide) (by decide) rfl

/-! ## C9: the frame of a claim -/

/-- C9: GetOutstanding neither adds nor removes a row; every row of the table
after the call is the row at the same place before it, either identical or, if
it is in the returned batch, that row with only its status set to Sending, so
identifier, owner, contact, content and requestReceivedAt are kept; and every
returned record is a row of the table before the call with only the status
changed. This holds whatever the order of the returned rows and whether or not
the transaction was retried. -/
theorem getOutstanding_frame (limitZero : Bool) (plan : Plan) (retried : List Retried)
    (db : DB) (fault : Option DbError)
    (owner : String) (take : Int) (now : Timestamp) :
    List.Forall₂
      (fun m m' =>
        (m' = m ∨
          (m' ∈ batch (GetOutstanding limitZero plan retried db fault owner take now).1 ∧
            m' = setSending m)) ∧
        m'.ID = m.ID ∧ m'.Owner = m.Owner ∧ m'.Contact = m.Contact ∧
        m'.Content = m.Content ∧ m'.RequestReceivedAt = m.RequestReceivedAt ∧
        m'.LastAttemptedAt = m.LastAttemptedAt ∧ m'.OrderTimestamp = m.OrderTimestamp)
      db (GetOutstanding limitZero plan retried db fault owner take now).2 ∧
    (∀ r ∈ batch (GetOutstanding limitZero plan retried db fault owner take now).1,
      ∃ m ∈ db, r = setSending m ∧
        r.ID = m.ID ∧ r.Owner = m.Owner ∧ r.Contact = m.Contact ∧
        r.Content = m.Content ∧ r.RequestReceivedAt = m.RequestReceivedAt ∧
        r.LastAttemptedAt = m.LastAttemptedAt ∧ r.OrderTimestamp = m.OrderTimestamp) := by
  cases fault with
  | some err =>
    refine ⟨?_, ?_⟩
    · simp only [GetOutstanding]
      rw [List.forall₂_same]
      intro m _
      exact ⟨Or.inl rfl, rfl, rfl, rfl, rfl, rfl, rfl, rfl⟩
    · intro r hr
      simp [GetOutstanding, batch] at hr
  | none =>
    refine ⟨?_, ?_⟩
    · simp only [GetOutstanding, txClosure, updateReturning, batch]
      rw [List.forall₂_map_right_iff, List.forall₂_same]
      intro m hm
      by_cases hw : whereIDs (modelIDs (List.foldl (messagesAfter limitZero owner take)
          [] retried)) (outstandingIDs limitZero db owner take now) m = true
      · rw [if_pos hw]
        refine ⟨Or.inr ⟨?_, rfl⟩, rfl, rfl, rfl, rfl, rfl, rfl, rfl⟩
        rw [plan_mem]
        exact List.mem_map.mpr ⟨m, List.mem_filter.mpr ⟨hm, hw⟩, rfl⟩
      · rw [if_neg hw]
        exact ⟨Or.inl rfl, rfl, rfl, rfl, rfl, rfl, rfl, rfl⟩
    · intro r hr
      simp only [GetOutstanding, txClosure, updateReturning, batch] at hr
      rw [plan_mem] at hr
      obtain ⟨m, hm, rfl⟩ := List.mem_map.mp hr
      exact ⟨m, (List.mem_filter.mp hm).1, rfl, rfl, rfl, rfl, rfl, rfl, rfl, rfl⟩

/-! ## C4: two calls in a row -/

/-- C4: in a store whose identifiers are unique (the primary key) and whose
Pending messages have no lastAttemptedAt (the invariant of the data model), for
two successful GetOutstanding calls for the same owner, the second run on the
store the first one left, no message that was Pending before the first call
is returned by both calls. This holds whatever time elapsed between the
calls, so in particular when less than staleAfter elapsed, and whether or not
either transaction was retried. -/
theorem getOutstanding_no_double_claim (limitZero : Bool) (plan1 plan2 : Plan)
    (retried1 retried2 : List Retried) (db : DB)
    (fault1 fault2 : Option DbError) (owner : String) (take1 take2 : Int)
    (now1 now2 : Timestamp) (msgs1 msgs2 : List Message) (db1 db2 : DB)
    (hpk : PrimaryKey db) (hinv : PendingUnattempted db)
    (h1 : GetOutstanding limitZero plan1 retried1 db fault1 owner take1 now1
      = (Except.ok msgs1, db1))
    (h2 : GetOutstanding limitZero plan2 retried2 db1 fault2 owner take2 now2
      = (Except.ok msgs2, db2)) :
    ∀ m ∈ db, m.Status = MessageStatus.Pending →
      ¬ (m.ID ∈ msgs1.map Message.ID ∧ m.ID ∈ msgs2.map Message.ID) := by
  rintro m hm hpending ⟨hin1, hin2⟩
  have hpk1 : PrimaryKey db1 := getOutstanding_primaryKey hpk h1
  -- the first call updated the row of m
  obtain ⟨r1, hr1, hr1id⟩ := List.mem_map.mp hin1
  obtain ⟨a, ha, hwa, rfl⟩ := (mem_returned_iff hpk h1 r1).mp hr1
  have haeq : a = m := id_injective hpk (mem_outstandingRows ha).1 hm hr1id
  subst haeq
  -- the row the second call returned is the row the first call wrote
  obtain ⟨r2, hr2, hr2id⟩ := List.mem_map.mp hin2
  obtain ⟨b, hb, _, rfl⟩ := (mem_returned_iff hpk1 h2 r2).mp hr2
  obtain ⟨hbdb1, hbw⟩ := mem_outstandingRows hb
  obtain ⟨_, _, hdb1⟩ := getOutstanding_ok h1
  rw [hdb1] at hbdb1
  obtain ⟨c, hc, hcb⟩ := List.mem_map.mp hbdb1
  have hcid : c.ID = a.ID := by
    have hbid : b.ID = c.ID := by
      rw [← hcb]
      by_cases hx : whereIDs (lastModel limitZero retried1 owner take1)
          (outstandingIDs limitZero db owner take1 now1) c = true <;>
        simp [hx, setSending]
    have : b.ID = a.ID := hr2id
    rw [← hbid]
    exact this
  have hceq : c = a := id_injective hpk hc hm hcid
  subst hceq
  rw [if_pos hwa] at hcb
  subst hcb
  unfold outstandingWhere at hbw
  rw [Bool.and_eq_true] at hbw
  rcases (outstandingStatus_iff now2 (setSending c)).mp hbw.2 with hp | ⟨_, t, hl, _⟩
  · exact MessageStatus.noConfusion hp
  · have hnone : c.LastAttemptedAt = none := hinv c hm hpending
    have hl' : c.LastAttemptedAt = some t := hl
    rw [hnone] at hl'
    cases hl'

/-- Witness of C4: a Pending message never attempted and a Sent one; the
Pending one is claimed at minute 16 and not returned one minute later. -/
theorem getOutstanding_no_double_claim_witness :
    ¬ ((sampleMessage 1 "A" MessageStatus.Pending 10 none).ID ∈
          [sampleMessage 1 "A" MessageStatus.Sending 10 none].map Message.ID ∧
        (sampleMessage 1 "A" MessageStatus.Pending 10 none).ID ∈
          ([] : List Message).map Message.ID) :=
  getOutstanding_no_double_claim false tableOrder tableOrder [] []
    [sampleMessage 1 "A" MessageStatus.Pending 10 none,
     sampleMessage 2 "A" MessageStatus.Sent 5 (some 6)] none none "A" 5 5
    (16 * minute) (17 * minute)
    [sampleMessage 1 "A" MessageStatus.Sending 10 none] []
    [sampleMessage 1 "A" MessageStatus.Sending 10 none,
     sampleMessage 2 "A" MessageStatus.Sent 5 (some 6)]
    [sampleMessage 1 "A" MessageStatus.Sending 10 none,
     sampleMessage 2 "A" MessageStatus.Sent 5 (some 6)]
    (by decide) (by decide) rfl rfl
    (sampleMessage 1 "A" MessageStatus.Pending 10 none) (by simp) rfl

/-! ## C7: `Update` of a message that is not stored -/

theorem find_appended {db : DB} {m : Message} (hid : m.ID ∉ db.map Message.ID) :
    (db ++ [m]).find? (fun x => x.ID == m.ID) = some m := by
  induction db with
  | nil => simp
  | cons a rest ih =>
    have ha : a.ID ≠ m.ID := fun e => hid (by simp [e])
    have hrest : m.ID ∉ rest.map Message.ID := fun h => hid (by simp at h ⊢; exact Or.inr h)
    simp [List.find?_cons, ha, ih hrest]

/-- C7, as stated, fails: the update of a message with identifier 7 on an empty
store returns no error and leaves the message in the store. -/
theorem update_of_missing_message_inserts :
    (sampleMessage 7 "A" MessageStatus.Pending 10 none).ID ∉
      ([] : DB).map Message.ID ∧
    Update [] none (sampleMessage 7 "A" MessageStatus.Pending 10 none)
      = (none, [sampleMessage 7 "A" MessageStatus.Pending 10 none]) ∧
    [sampleMessage 7 "A" MessageStatus.Pending 10 none] ≠ ([] : DB) := by
  refine ⟨by decide, rfl, by decide⟩

/-- C7, amended: for a message whose identifier is not in the store, Update
does not fail with a not-found error. When the storage raises no error it
returns no error and inserts the message after the rows already stored, which
are unchanged, and a following Load reads it; when the storage raises an error,
Update returns that error without a code and the store is unchanged. -/
theorem update_absent (ErrCodeNotFound : ErrorCode) (db : DB) (message : Message)
    (habsent : message.ID ∉ db.map Message.ID) :
    Update db none message = (none, db ++ [message]) ∧
    Load ErrCodeNotFound (db ++ [message]) none message.ID = Except.ok message ∧
    (∀ (fault : Option DbError) (err : StackError) (db' : DB),
      Update db fault message = (some err, db') →
        fault = some err.cause ∧ err.code = NoCode ∧ db' = db) := by
  refine ⟨?_, ?_, ?_⟩
  · unfold Update dbSave dbCreate
    by_cases h0 : message.ID = 0
    · simp only [h0, if_true]
      rw [if_neg (h0 ▸ habsent)]
    · simp only [h0, if_false]
      rw [if_neg habsent, if_neg habsent]
  · unfold Load dbFirst
    simp only [find_appended habsent]
  · intro fault err db' h
    cases fault with
    | none =>
      unfold Update dbSave dbCreate at h
      by_cases h0 : message.ID = 0
      · simp only [h0, if_true] at h
        rw [if_neg (h0 ▸ habsent)] at h
        simp at h
      · simp only [h0, if_false] at h
        rw [if_neg habsent, if_neg habsent] at h
        simp at h
    | some e =>
      simp only [Update, dbSave, Prod.mk.injEq, Option.some.injEq] at h
      obtain ⟨he, hdb⟩ := h
      subst he
      exact ⟨rfl, rfl, hdb.symm⟩

/-- Witness of C7: the update of message 7 on a store holding message 1. -/
theorem update_absent_witness :
    Update [sampleMessage 1 "A" MessageStatus.Sent 5 (some 6)] none
        (sampleMessage 7 "A" MessageStatus.Pending 10 none)
      = (none, [sampleMessage 1 "A" MessageStatus.Sent 5 (some 6)] ++
          [sampleMessage 7 "A" MessageStatus.Pending 10 none]) ∧
    Load 1000 ([sampleMessage 1 "A" MessageStatus.Sent 5 (some 6)] ++
        [sampleMessage 7 "A" MessageStatus.Pending 10 none]) none
        (sampleMessage 7 "A" MessageStatus.Pending 10 none).ID
      = Except.ok (sampleMessage 7 "A" MessageStatus.Pending 10 none) ∧
    (∀ (fault : Option DbError) (err : StackError) (db' : DB),
      Update [sampleMessage 1 "A" MessageStatus.Sent 5 (some 6)] fault
          (sampleMessage 7 "A" MessageStatus.Pending 10 none) = (some err, db') →
        fault = some err.cause ∧ err.code = NoCode ∧
        db' = [sampleMessage 1 "A" MessageStatus.Sent 5 (some 6)]) :=
  update_absent 1000 [sampleMessage 1 "A" MessageStatus.Sent 5 (some 6)]
    (sampleMessage 7 "A" MessageStatus.Pending 10 none) (by decide)

/-! ## C8: a limit below 1 -/

/-- C8, as stated, fails: with limit -1 the call returns no error and claims
both Pending messages of the owner. -/
theorem getOutstanding_negative_limit_claims :
    GetOutstanding false tableOrder []
        [sampleMessage 1 "A" MessageStatus.Pending 1 none,
         sampleMessage 2 "A" MessageStatus.Pending 2 none] none "A" (-1) 100
      = (Except.ok [sampleMessage 1 "A" MessageStatus.Sending 1 none,
                    sampleMessage 2 "A" MessageStatus.Sending 2 none],
         [sampleMessage 1 "A" MessageStatus.Sending 1 none,
          sampleMessage 2 "A" MessageStatus.Sending 2 none]) ∧
    GetOutstanding true tableOrder []
        [sampleMessage 1 "A" MessageStatus.Pending 1 none,
         sampleMessage 2 "A" MessageStatus.Pending 2 none] none "A" (-1) 100
      = (Except.ok [sampleMessage 1 "A" MessageStatus.Sending 1 none,
                    sampleMessage 2 "A" MessageStatus.Sending 2 none],
         [sampleMessage 1 "A" MessageStatus.Sending 1 none,
          sampleMessage 2 "A" MessageStatus.Sending 2 none]) :=
  ⟨rfl, rfl⟩

/-- C8, amended: GetOutstanding does not validate its limit. In a store whose
identifiers are unique (the primary key), with a limit below 1 and no error
from the storage it succeeds. The query then has no LIMIT
clause, so every eligible message of the owner is set to Sending and returned
(in the order the database returns them) and no other row changes; the one
exception is limit 0 under a GORM release that writes LIMIT 0, where the batch
is empty and the store unchanged. The only
error the call returns is the one the storage raised, and then the store is
unchanged. -/
theorem getOutstanding_limit_below_one (limitZero : Bool) (db : DB) (owner : String)
    (take : Int) (now : Timestamp) (hpk : PrimaryKey db) (htake : take < 1) :
    (∀ plan : Plan,
      GetOutstanding limitZero plan [] db none owner take now =
        (if take = 0 ∧ limitZero = true then (Except.ok [], db)
         else
          (Except.ok (plan.returning
            ((db.filter (outstandingWhere owner now)).map setSending)),
           db.map (fun m =>
            if outstandingWhere owner now m = true then setSending m else m)))) ∧
    (∀ (plan : Plan) (retried : List Retried) (fault : Option DbError)
        (err : StackError) (db' : DB),
      GetOutstanding limitZero plan retried db fault owner take now
          = (Except.error err, db') →
        fault = some err.cause ∧ err.code = NoCode ∧ db' = db) := by
  refine ⟨?_, ?_⟩
  · intro plan
    by_cases hz : take = 0 ∧ limitZero = true
    · rw [if_pos hz]
      have hrows : outstandingRows limitZero db owner take now = [] := by
        unfold outstandingRows gormLimit
        rw [if_neg (by omega), if_pos hz]
      simp [GetOutstanding, txClosure, updateReturning, outstandingIDs, hrows,
        filter_whereIDs_nil, plan_nil, whereIDs]
    · rw [if_neg hz]
      have hrows : outstandingRows limitZero db owner take now =
          orderByRequestReceivedAt (db.filter (outstandingWhere owner now)) := by
        unfold outstandingRows gormLimit
        rw [if_neg (by omega), if_neg hz]
      have hiff : ∀ m ∈ db, (m.ID ∈ outstandingIDs limitZero db owner take now ↔
          outstandingWhere owner now m = true) := by
        intro m hm
        rw [mem_outstandingIDs_iff hpk hm, hrows, (orderBy_perm _).mem_iff,
          List.mem_filter]
        exact ⟨fun h => h.2, fun h => ⟨hm, h⟩⟩
      have hw : ∀ m ∈ db, whereIDs (modelIDs [])
          (outstandingIDs limitZero db owner take now) m = outstandingWhere owner now m := by
        intro m hm
        have hnone : modelIDs [] = none := rfl
        rw [hnone, whereIDs_none]
        by_cases hx : outstandingWhere owner now m = true
        · rw [hx]
          exact decide_eq_true ((hiff m hm).mpr hx)
        · have hx' : outstandingWhere owner now m = false := by
            simpa using hx
          rw [hx']
          exact decide_eq_false (fun h => hx ((hiff m hm).mp h))
      simp only [GetOutstanding, txClosure, updateReturning, List.foldl_nil,
        Prod.mk.injEq, Except.ok.injEq]
      constructor
      · congr 2
        exact List.filter_congr hw
      · apply List.map_congr_left
        intro m hm
        simp only [hw m hm]
  · intro plan retried fault err db' h
    cases fault with
    | none => simp [GetOutstanding] at h
    | some e =>
      simp only [GetOutstanding, Prod.mk.injEq, Except.error.injEq] at h
      obtain ⟨he, hdb⟩ := h
      subst he
      exact ⟨rfl, rfl, hdb.symm⟩

/-- Witness of C8: limit -1 on a store with a Pending message of the owner and
a Sent one. -/
theorem getOutstanding_limit_below_one_witness :
    (∀ plan : Plan,
      GetOutstanding false plan []
        [sampleMessage 1 "A" MessageStatus.Pending 1 none,
         sampleMessage 2 "A" MessageStatus.Sent 2 (some 3)]
        none "A" (-1) 100 =
      (if (-1 : Int) = 0 ∧ false = true then
        (Except.ok [],
          [sampleMessage 1 "A" MessageStatus.Pending 1 none,
           sampleMessage 2 "A" MessageStatus.Sent 2 (some 3)])
       else
        (Except.ok (plan.returning
          (([sampleMessage 1 "A" MessageStatus.Pending 1 none,
            sampleMessage 2 "A" MessageStatus.Sent 2 (some 3)].filter
              (outstandingWhere "A" 100)).map setSending)),
         [sampleMessage 1 "A" MessageStatus.Pending 1 none,
          sampleMessage 2 "A" MessageStatus.Sent 2 (some 3)].map
            (fun m => if outstandingWhere "A" 100 m = true then setSending m else m)))) ∧
    (∀ (plan : Plan) (retried : List Retried) (fault : Option DbError)
        (err : StackError) (db' : DB),
      GetOutstanding false plan retried
        [sampleMessage 1 "A" MessageStatus.Pending 1 none,
         sampleMessage 2 "A" MessageStatus.Sent 2 (some 3)]
        fault "A" (-1) 100 = (Except.error err, db') →
        fault = some err.cause ∧ err.code = NoCode ∧
        db' = [sampleMessage 1 "A" MessageStatus.Pending 1 none,
               sampleMessage 2 "A" MessageStatus.Sent 2 (some 3)]) :=
  getOutstanding_limit_below_one false
    [sampleMessage 1 "A" MessageStatus.Pending 1 none,
     sampleMessage 2 "A" MessageStatus.Sent 2 (some 3)]
    "A" (-1) 100 (by decide) (by decide)

/-! ## C10: `Upsert` when `Load` fails -/

/-- C10, on the code: when Load returns no phone and an error whose code is not
ErrCodeNotFound, Upsert does not return an error; it assigns FcmToken through
the nil phone and ends in a nil-pointer dereference, after the one call of
Load and without calling Save. -/
theorem upsert_load_error_nil_dereference {σ : Type} (ErrCodeNotFound : ErrorCode)
    (repo : PhoneRepository σ) (env : Env) (s : σ) (params : PhoneUpsertParams)
    (err : StackError) (hcode : err.code ≠ ErrCodeNotFound)
    (hload : repo.Load s params.UserID (env.Format params.PhoneNumber) = (none, some err)) :
    Upsert ErrCodeNotFound repo env s params =
      (UpsertResult.nilDereference, s,
        [RepoCall.Load params.UserID (env.Format params.PhoneNumber)]) := by
  unfold Upsert
  simp only [hload, GetCode]
  rw [if_neg hcode]

/-- Witness of C10: the storage is down, Load returns an error without a code,
and ErrCodeNotFound is 1000. -/
theorem upsert_load_error_nil_dereference_witness :
    Upsert 1000 unavailableRepository sampleEnv [] sampleParams =
      (UpsertResult.nilDereference, [],
        [RepoCall.Load sampleParams.UserID (sampleEnv.Format sampleParams.PhoneNumber)]) :=
  upsert_load_error_nil_dereference 1000 unavailableRepository sampleEnv []
    sampleParams (Propagate DbError.Unavailable) (by decide) rfl

end HttpSms
